import Mathlib

/-!
Shallow embedding of the `dirtools3` command-line tool.

The embedding follows the repository sources:
* `src/dirtools/dirt.py` — the CLI driver `invoke_dirtools3` (authoritative),
* `src/dirtools/argument_parser.py` — `get_args`, the argparse boundary,
* `src/bin/dirt.py` — the older click-based driver (same logic).

The scanner/trimmer (`dirtools.scanner`: `Folder`, `SortBy`) and the size
codec (`dirtools.utils`: `bytes2human`, `human2bytes`) are imported by the
CLI but their modules are not part of this repository snapshot; those parts
are modelled from the specification (sections 4.1-4.4) and are marked with
doc comments starting with "Modelled from the spec".

Strings are treated over their ASCII fragment: Python's `str.isdigit`,
`str.upper`, `str.lower` agree with the ASCII-only functions used here on
all inputs the CLI deals with.

Side effects (the filesystem scan, `sys.stdout`/`sys.stderr` writes, the
`cleanup_items` call that performs deletions, and uncaught exceptions) are
embedded as an ordered trace of `Event`s produced by the pure function
`invoke_dirtools3`.
-/

namespace Dirt

/-! ## Entry and Folder data model -/

/-- Modelled from the spec: one aggregated row of scan output (spec section 3).
Timestamps are integers; `size` and counts are naturals. -/
structure Entry where
  name : String
  size : Nat
  depth : Nat
  num_of_files : Nat
  atime : Int
  mtime : Int
  ctime : Int
  deriving DecidableEq

/-- Total byte size of a list of entries. -/
def sizeSum : List Entry → Nat
  | [] => 0
  | e :: es => e.size + sizeSum es

/-- Modelled from the spec: the result of `Folder(path, sortby, level=depth)`
(spec section 4.1) — the scanned entries, already in the sort order the
scanner produced, together with the recorded elapsed time. -/
structure Folder where
  entries : List Entry
  exec_took : Nat
  deriving DecidableEq

/-- `scan.total_size` — recomputed from the current entries. -/
def Folder.total_size (f : Folder) : Nat := sizeSum f.entries

/-- `len(scan)`. -/
def Folder.len (f : Folder) : Nat := f.entries.length

/-! ## Trimmer deletion loop -/

/-- Modelled from the spec: the Trimmer's deletion loop (spec section 4.4).
Walk the sorted entries in order; while the running remaining total still
exceeds the target `T`, delete the entry (removing its whole size from the
remaining total); stop as soon as the remaining total is at or below `T`.
Returns the surviving entries and the remaining total. -/
def trimLoop : List Entry → Nat → Nat → List Entry × Nat
  | [], rem, _ => ([], rem)
  | e :: es, rem, T => if T < rem then trimLoop es (rem - e.size) T else (e :: es, rem)

/-- The folder state after `cleanup_items` deleted entries down to target `T`. -/
def Folder.afterTrim (f : Folder) (T : Nat) : Folder :=
  { entries := (trimLoop f.entries f.total_size T).1, exec_took := f.exec_took }

/-! ## SizeUnit codec (`dirtools.utils.bytes2human` / `human2bytes`) -/

/-- Round-to-nearest for the nonnegative rational `a / b`. -/
def natRound (a b : Nat) : Nat := (2 * a + b) / (2 * b)

/-- Modelled from the spec: the largest unit exponent `k` (base `1024 ^ k`)
that keeps the mantissa `n / 1024 ^ k` at least 1 (spec section 4.3); units
range over b, kb, mb, gb, tb, pb. -/
def unitExp (n : Nat) : Nat :=
  if n < 1024 then 0
  else if n < 1024 ^ 2 then 1
  else if n < 1024 ^ 3 then 2
  else if n < 1024 ^ 4 then 3
  else if n < 1024 ^ 5 then 4
  else 5

/-- The unit suffix for exponent `k`. -/
def unitSuffix : Nat → List Char
  | 0 => ['b']
  | 1 => ['k', 'b']
  | 2 => ['m', 'b']
  | 3 => ['g', 'b']
  | 4 => ['t', 'b']
  | _ => ['p', 'b']

/-- The mantissa of `n` at precision `p`, scaled by `10 ^ p` and rounded to
the nearest integer: `round ((n / 1024 ^ unitExp n) * 10 ^ p)`. -/
def scaledMantissa (n p : Nat) : Nat := natRound (n * 10 ^ p) (1024 ^ unitExp n)

/-- Little-endian base-10 digits of `n`, with explicit fuel so that the
definition is structural (and hence kernel-reducible). -/
def digitsAux : Nat → Nat → List Nat
  | _, 0 => []
  | 0, _ => []
  | fuel + 1, n + 1 => (n + 1) % 10 :: digitsAux fuel ((n + 1) / 10)

/-- Value of a little-endian base-10 digit list. -/
def fromDigits : List Nat → Nat
  | [] => 0
  | d :: ds => d + 10 * fromDigits ds

/-- The character for digit `d`. -/
def digitChar (d : Nat) : Char := Char.ofNat (48 + d)

/-- The digit value of a character. -/
def charVal (c : Char) : Nat := c.toNat - 48

/-- Decimal rendering of a natural number as characters. -/
def natToChars (x : Nat) : List Char :=
  if x = 0 then ['0'] else ((digitsAux x x).reverse.map digitChar)

/-- Parse a (big-endian) run of digit characters into a natural number. -/
def chars2nat (cs : List Char) : Nat := fromDigits ((cs.map charVal).reverse)

/-- Render the scaled mantissa at precision `p`: the integer part, then —
when `p > 0` — a dot and exactly `p` fractional digits. -/
def renderNum (scaled p : Nat) : List Char :=
  if p = 0 then natToChars scaled
  else
    natToChars (scaled / 10 ^ p) ++
      '.' :: (List.replicate (p - (natToChars (scaled % 10 ^ p)).length) '0' ++
        natToChars (scaled % 10 ^ p))

/-- Modelled from the spec: `bytes2human` (spec section 4.3) — format a byte
count using the largest unit keeping the mantissa at least 1, rounded to
`precision` decimal digits, followed by the unit suffix. -/
def bytes2human (n : Nat) (precision : Nat) : String :=
  ⟨renderNum (scaledMantissa n precision) precision ++ unitSuffix (unitExp n)⟩

/-- ASCII lower-casing of one character. -/
def lowerChar (c : Char) : Char :=
  if 65 ≤ c.toNat ∧ c.toNat ≤ 90 then Char.ofNat (c.toNat + 32) else c

/-- ASCII upper-casing of one character. -/
def upperChar (c : Char) : Char :=
  if 97 ≤ c.toNat ∧ c.toNat ≤ 122 then Char.ofNat (c.toNat - 32) else c

/-- ASCII `str.lower`. -/
def strLower (s : String) : String := ⟨s.data.map lowerChar⟩

/-- ASCII `str.upper`. -/
def strUpper (s : String) : String := ⟨s.data.map upperChar⟩

/-- Is `c` part of the numeric component (a digit or the decimal dot)? -/
def numChar (c : Char) : Bool := c.isDigit || c == '.'

/-- Split a human-size string into its numeric component and the unit rest. -/
def splitNum : List Char → List Char × List Char
  | [] => ([], [])
  | c :: cs =>
    if numChar c then (c :: (splitNum cs).1, (splitNum cs).2) else ([], c :: cs)

/-- Split a numeric component at the first dot, if any. -/
def splitDot : List Char → List Char × Option (List Char)
  | [] => ([], none)
  | c :: cs =>
    if c == '.' then ([], some cs) else (c :: (splitDot cs).1, (splitDot cs).2)

/-- Parse the numeric component into `(mantissa scaled by 10 ^ f, f)` where
`f` is the number of fractional digits; `none` when malformed. -/
def parseNum (cs : List Char) : Option (Nat × Nat) :=
  match splitDot cs with
  | (ics, none) =>
    if ics.isEmpty then none
    else if ics.all Char.isDigit then some (chars2nat ics, 0) else none
  | (ics, some fcs) =>
    if ics.isEmpty && fcs.isEmpty then none
    else if ics.all Char.isDigit && fcs.all Char.isDigit then
      some (chars2nat ics * 10 ^ fcs.length + chars2nat fcs, fcs.length)
    else none

/-- Case-insensitive match of the unit suffix to its exponent. -/
def unitToExp (cs : List Char) : Option Nat :=
  let l := cs.map lowerChar
  if l = ['b'] then some 0
  else if l = ['k', 'b'] then some 1
  else if l = ['m', 'b'] then some 2
  else if l = ['g', 'b'] then some 3
  else if l = ['t', 'b'] then some 4
  else if l = ['p', 'b'] then some 5
  else none

/-- Modelled from the spec: `human2bytes` (spec section 4.3) — parse a
`<number><unit>` string into a byte count, rounding the exact rational value
to the nearest integer; `none` (a `ParseError`) when the string has no
numeric component or an unrecognized unit. -/
def human2bytes (s : String) : Option Nat :=
  match parseNum (splitNum s.data).1, unitToExp (splitNum s.data).2 with
  | some (mant, f), some k => some (natRound (mant * 1024 ^ k) (10 ^ f))
  | _, _ => none

/-! ## SortBy and the argparse boundary (`src/dirtools/argument_parser.py`) -/

/-- Modelled from the spec: the sort keys crossed with a direction
(spec section 4.2); member names mirror the Python enum. -/
inductive SortBy
  | NAME_ASC | NAME_DESC | SIZE_ASC | SIZE_DESC | DEPTH_ASC | DEPTH_DESC
  | NUM_OF_FILES_ASC | NUM_OF_FILES_DESC | ATIME_ASC | ATIME_DESC
  | MTIME_ASC | MTIME_DESC | CTIME_ASC | CTIME_DESC
  deriving DecidableEq

/-- `str(s)` on a `SortBy` member. -/
def SortBy.str : SortBy → String
  | .NAME_ASC => "NAME_ASC"
  | .NAME_DESC => "NAME_DESC"
  | .SIZE_ASC => "SIZE_ASC"
  | .SIZE_DESC => "SIZE_DESC"
  | .DEPTH_ASC => "DEPTH_ASC"
  | .DEPTH_DESC => "DEPTH_DESC"
  | .NUM_OF_FILES_ASC => "NUM_OF_FILES_ASC"
  | .NUM_OF_FILES_DESC => "NUM_OF_FILES_DESC"
  | .ATIME_ASC => "ATIME_ASC"
  | .ATIME_DESC => "ATIME_DESC"
  | .MTIME_ASC => "MTIME_ASC"
  | .MTIME_DESC => "MTIME_DESC"
  | .CTIME_ASC => "CTIME_ASC"
  | .CTIME_DESC => "CTIME_DESC"

/-- Iteration order of the `SortBy` enum. -/
def SortBy.all : List SortBy :=
  [.NAME_ASC, .NAME_DESC, .SIZE_ASC, .SIZE_DESC, .DEPTH_ASC, .DEPTH_DESC,
   .NUM_OF_FILES_ASC, .NUM_OF_FILES_DESC, .ATIME_ASC, .ATIME_DESC,
   .MTIME_ASC, .MTIME_DESC, .CTIME_ASC, .CTIME_DESC]

/-- `SORT_BY_OPTIONS = [str(s).lower() for s in SortBy]`. -/
def SORT_BY_OPTIONS : List String := SortBy.all.map (fun s => strLower s.str)

/-- Modelled from the spec: the table-format names understood by the external
table renderer (`tabulate._table_formats.keys()`); an external collaborator,
only its membership matters to the CLI boundary. -/
def TABLE_FORMATS : List String :=
  ["simple", "plain", "grid", "fancy_grid", "github", "pipe", "orgtbl", "jira",
   "presto", "psql", "rst", "mediawiki", "moinmoin", "youtrack", "html",
   "latex", "latex_raw", "latex_booktabs", "textile", "tsv"]

/-- `TABULATE_OPTIONS = ("csv",) + tuple(_table_formats.keys())`. -/
def TABULATE_OPTIONS : List String := "csv" :: TABLE_FORMATS

/-- The command-line option values as handed to `argparse` (absent options
take their declared defaults); `precision` and `depth` are already through
`type=int`. -/
structure RawArgs where
  path : Option String
  sortby : Option String
  output : Option String
  precision : Option Int
  depth : Option Int
  nohuman : Bool
  trim_down : Option String
  deriving DecidableEq

/-- The parsed argument record returned by `get_args`. -/
structure Args where
  path : String
  sortby : String
  output : String
  precision : Nat
  depth : Nat
  nohuman : Bool
  trim_down : Option String
  deriving DecidableEq

/-- `get_args` from `src/dirtools/argument_parser.py`: defaults are
`path=os.getcwd()`, `sortby="atime_desc"`, `output="simple"`, `precision=2`,
`depth=0`; provided choices are validated (`choices=SORT_BY_OPTIONS`,
`choices=TABULATE_OPTIONS`, `choices=range(0,12)`, `choices=range(0,3)`) and
an invalid choice makes argparse exit with an error instead of returning. -/
def get_args (cwd : String) (r : RawArgs) : Except String Args :=
  let sortby := r.sortby.getD "atime_desc"
  let output := r.output.getD "simple"
  let precision := r.precision.getD 2
  let depth := r.depth.getD 0
  if r.sortby.isSome && !(SORT_BY_OPTIONS.contains sortby) then
    Except.error ("argument -s/--sortby: invalid choice: " ++ sortby)
  else if r.output.isSome && !(TABULATE_OPTIONS.contains output) then
    Except.error ("argument -o/--output: invalid choice: " ++ output)
  else if r.precision.isSome && !(0 ≤ precision && precision < 12) then
    Except.error "argument -p/--precision: invalid choice"
  else if r.depth.isSome && !(0 ≤ depth && depth < 3) then
    Except.error "argument -d/--depth: invalid choice"
  else
    Except.ok
      { path := r.path.getD cwd, sortby := sortby, output := output,
        precision := precision.toNat, depth := depth.toNat,
        nohuman := r.nohuman, trim_down := r.trim_down }

/-! ## Rendering (`TABLE_HEADERS`, the csv writer, the tabulate collaborator) -/

/-- A table cell as handed to the csv writer / tabulate: either a string or
a number (`csv.QUOTE_NONNUMERIC` quotes exactly the non-numbers). -/
inductive Cell
  | str (s : String)
  | num (n : Int)
  deriving DecidableEq

/-- Modelled from the spec: human-readable timestamp rendering; the spec
fixes no timestamp format, only that the humanised field is a string, so it
is modelled as the decimal rendering carried as a string. -/
def fmtTime (t : Int) : String := toString t

/-- Modelled from the spec: the ordered row mapping of one Entry
(`i.values()`), whose key order matches `TABLE_HEADERS`:
name, size, depth, num_of_files, atime, mtime, ctime. -/
def Entry.values (humanise : Bool) (precision : Nat) (e : Entry) : List Cell :=
  [Cell.str e.name,
   if humanise then Cell.str (bytes2human e.size precision) else Cell.num e.size,
   Cell.num e.depth,
   Cell.num e.num_of_files,
   if humanise then Cell.str (fmtTime e.atime) else Cell.num e.atime,
   if humanise then Cell.str (fmtTime e.mtime) else Cell.num e.mtime,
   if humanise then Cell.str (fmtTime e.ctime) else Cell.num e.ctime]

/-- `scan.items(...)` / `scan.cleanup_items(...)['rows']`: the row mappings
of the current entries. -/
def Folder.items (f : Folder) (humanise : Bool) (precision : Nat) : List (List Cell) :=
  f.entries.map (Entry.values humanise precision)

/-- `TABLE_HEADERS` from `src/dirtools/dirt.py`, in its dict order. -/
def TABLE_HEADERS : List (String × String) :=
  [("name", "Name"), ("size", "Size"), ("depth", "Depth"),
   ("num_of_files", "Files"), ("atime", "Access Time"),
   ("mtime", "Modify Time"), ("ctime", "Change Time")]

/-- Double the quote characters inside a quoted csv field. -/
def escQuote : List Char → List Char
  | [] => []
  | c :: cs => if c == '"' then '"' :: '"' :: escQuote cs else c :: escQuote cs

/-- Wrap a string in csv quotes. -/
def quoteStr (s : String) : String := "\"" ++ ⟨escQuote s.data⟩ ++ "\""

/-- One csv field under `csv.QUOTE_NONNUMERIC`: strings quoted, numbers raw. -/
def csvField : Cell → String
  | .str s => quoteStr s
  | .num n => toString n

/-- The rendered table handed to `sys.stdout`: either the csv writer's rows
(header row first) or the tabulate collaborator's input. -/
inductive Rendered
  | csv (rows : List (List String))
  | table (fmt : String) (headers : List String) (rows : List (List Cell))
  deriving DecidableEq

/-- The csv branch of `invoke_dirtools3`: `writer.writerow(TABLE_HEADERS.values())`
followed by `writer.writerows(i.values() for i in items)`. -/
def csvRows (items : List (List Cell)) : List (List String) :=
  (TABLE_HEADERS.map fun kv => quoteStr kv.2) :: items.map (fun row => row.map csvField)

/-- The output-format dispatch of `invoke_dirtools3`: the custom csv writer
for `"csv"`, otherwise the tabulate collaborator, which renders the given
row mappings under the given headers (modelled from the spec: the renderer
preserves the column order it is handed). -/
def renderOutput (output : String) (items : List (List Cell)) : Rendered :=
  if strLower output == "csv" then .csv (csvRows items)
  else .table output (TABLE_HEADERS.map Prod.snd) items

/-! ## The event trace of `invoke_dirtools3` -/

/-- An output stream of the process. -/
inductive Fd
  | stdout
  | stderr
  deriving DecidableEq

/-- The payload of one stream write, kept structured (the Python format
strings only interpolate these values into prose). -/
inductive OutContent
  | rows (r : Rendered)
  | argError (msg : String)
  | invalidSortby
  | ambiguousTrim (given : String)
  | summaryListing (count : Nat) (size : String) (took : Nat)
  | summaryDeleted (delLen : Int) (delSize : String)
  | summaryRemaining (count : Nat) (size : String) (took : Nat)
  deriving DecidableEq

/-- One observable effect of a CLI run, in program order. -/
inductive Event
  | scanFolder (path : String)
  | cleanup (target : String)
  | exn (msg : String)
  | write (fd : Fd) (c : OutContent)
  deriving DecidableEq

/-- `str.isdigit` (ASCII fragment): non-empty and every character a digit. -/
def pyIsdigit (s : String) : Bool := !s.data.isEmpty && s.data.all Char.isDigit

/-- `next(s for s in SortBy if args.sortby.upper() == str(s))`. -/
def resolveSortBy (s : String) : Option SortBy :=
  SortBy.all.find? (fun x => strUpper s == SortBy.str x)

/-- The `lit` pluralisation helper of `invoke_dirtools3`. -/
def lit (n : Nat) (sing plur : String) : String :=
  toString n ++ " " ++ (if n = 1 then sing else plur)

/-- `invoke_dirtools3` from `src/dirtools/dirt.py`, as the trace of effects
of one run on the folder `fs` that scanning `args.path` produces.  When the
sortby generator raises `StopIteration`, the `except` block formats the
still-unassigned local `sortby`, which raises `UnboundLocalError` before
anything is written.  A `None` returned by `human2bytes` stands for the
`ParseError` that `cleanup_items` raises and the CLI does not catch. -/
def invoke_dirtools3 (args : Args) (fs : Folder) : List Event :=
  match resolveSortBy args.sortby with
  | none => [Event.exn "UnboundLocalError: sortby"]
  | some _ =>
    Event.scanFolder args.path ::
    let old_size := fs.total_size
    let old_items_len := fs.len
    match args.trim_down with
    | none =>
      let items := fs.items (!args.nohuman) args.precision
      [Event.write .stdout (.rows (renderOutput args.output items)),
       Event.write .stdout
         (.summaryListing fs.len (bytes2human fs.total_size args.precision) fs.exec_took)]
    | some t =>
      if pyIsdigit t then [Event.write .stderr (.ambiguousTrim t)]
      else
        Event.cleanup t ::
        match human2bytes t with
        | none => [Event.exn "ParseError"]
        | some T =>
          let scanNew := fs.afterTrim T
          let items := scanNew.items (!args.nohuman) args.precision
          [Event.write .stdout (.rows (renderOutput args.output items)),
           Event.write .stderr
             (.summaryDeleted ((scanNew.len : Int) - (old_items_len : Int))
               (bytes2human (old_size - scanNew.total_size) args.precision)),
           Event.write .stderr
             (.summaryRemaining scanNew.len
               (bytes2human scanNew.total_size args.precision) scanNew.exec_took)]

/-- The `__main__` block of `src/dirtools/dirt.py`: parse the command line,
exiting on the argparse error stream on an invalid choice, otherwise run
`invoke_dirtools3`. -/
def dirtMain (cwd : String) (r : RawArgs) (fs : Folder) : List Event :=
  match get_args cwd r with
  | .error e => [Event.write .stderr (.argError e)]
  | .ok a => invoke_dirtools3 a fs

/-- The contents written to standard output, in order. -/
def stdoutContents (tr : List Event) : List OutContent :=
  tr.filterMap fun e =>
    match e with
    | .write .stdout c => some c
    | _ => none

/-- The fixed column labels, in order: Name, Size, Depth, Files, Access
Time, Modify Time, Change Time. -/
def headerLabels : List String :=
  ["Name", "Size", "Depth", "Files", "Access Time", "Modify Time", "Change Time"]

/-- The column contract of a rendered table: in the csv rendering the quoted
header row comes first and every data row lists, in order, the quoted name,
the size, the depth, the file count and the three quoted-or-raw timestamps
of some entry (non-numeric fields quoted, numeric fields raw); in the
tabulate rendering the headers are the fixed labels and every row lists the
same seven fields in the same order. -/
def ColumnsOk (humanise : Bool) (precision : Nat) : Rendered → Prop
  | .csv rows =>
    rows.head? = some [quoteStr "Name", quoteStr "Size", quoteStr "Depth",
      quoteStr "Files", quoteStr "Access Time", quoteStr "Modify Time",
      quoteStr "Change Time"] ∧
    ∀ row ∈ rows.tail, ∃ e : Entry,
      row = [csvField (.str e.name),
             csvField (if humanise then .str (bytes2human e.size precision) else .num e.size),
             csvField (.num e.depth),
             csvField (.num e.num_of_files),
             csvField (if humanise then .str (fmtTime e.atime) else .num e.atime),
             csvField (if humanise then .str (fmtTime e.mtime) else .num e.mtime),
             csvField (if humanise then .str (fmtTime e.ctime) else .num e.ctime)]
  | .table _ hs rows =>
    hs = headerLabels ∧
    ∀ row ∈ rows, ∃ e : Entry,
      row = [Cell.str e.name,
             if humanise then Cell.str (bytes2human e.size precision) else Cell.num e.size,
             Cell.num e.depth,
             Cell.num e.num_of_files,
             if humanise then Cell.str (fmtTime e.atime) else Cell.num e.atime,
             if humanise then Cell.str (fmtTime e.mtime) else Cell.num e.mtime,
             if humanise then Cell.str (fmtTime e.ctime) else Cell.num e.ctime]

/-! ## Concrete runs used by counterexamples and witnesses -/

/-- A four-entry folder of sizes 10, 20, 30, 40 (total 100), already in
ascending `atime` order, with a 1-second scan time. -/
def fs4 : Folder :=
  ⟨[⟨"e1", 10, 0, 1, 1, 1, 1⟩, ⟨"e2", 20, 0, 1, 2, 2, 2⟩,
    ⟨"e3", 30, 0, 1, 3, 3, 3⟩, ⟨"e4", 40, 0, 1, 4, 4, 4⟩], 1⟩

/-- A cleanup run over `fs4` trimming down to `"60b"`. -/
def argsTrim60 : Args := ⟨"/data", "atime_asc", "simple", 2, 0, true, some "60b"⟩

/-- A cleanup run whose `--trim-down` value is the empty string. -/
def argsTrimEmpty : Args := ⟨"/data", "atime_desc", "simple", 2, 0, true, some ""⟩

/-- A single-entry folder used by listing-mode witnesses. -/
def fs1 : Folder := ⟨[⟨"a", 5, 0, 1, 7, 8, 9⟩], 1⟩

/-- A listing run over `fs1` in csv output with raw values. -/
def argsCsv : Args := ⟨"/data", "atime_desc", "csv", 2, 0, true, none⟩

/-- A cleanup run whose `--trim-down` value is the bare-digit string 12345. -/
def argsTrim12345 : Args := ⟨"/d", "atime_desc", "simple", 2, 0, true, some "12345"⟩

/-! ## Helper lemmas -/

/-- A run whose `--trim-down` value is a non-empty all-digit string performs
the scan, writes the ambiguity error and stops. -/
theorem bareDigitTrace (args : Args) (fs : Folder) (td : String)
    (h : args.trim_down = some td) (hd : pyIsdigit td = true)
    (hs : (resolveSortBy args.sortby).isSome = true) :
    invoke_dirtools3 args fs =
      [Event.scanFolder args.path, Event.write .stderr (.ambiguousTrim td)] := by
  rcases ho : resolveSortBy args.sortby with _ | s
  · rw [ho] at hs; simp at hs
  · simp [invoke_dirtools3, ho, h, hd]

/-- A non-empty string of digits satisfies `pyIsdigit`. -/
theorem pyIsdigit_of (td : String) (hne : td ≠ "")
    (hdig : td.data.all Char.isDigit = true) : pyIsdigit td = true := by
  have hdata : td.data ≠ [] := by
    intro h0
    exact hne (by cases td; simp_all)
  simp [pyIsdigit, hdig, hdata]

/-! ## Claims -/

/-- C1, counterexample: the claim quantifies over every `--trim-down` string
all of whose characters are digits; the empty string satisfies that
vacuously, yet the code forwards it to `cleanup_items` (because Python's
`"".isdigit()` is false) instead of rejecting it: the cleanup call is
invoked and no ambiguity error is written. -/
theorem claim_C1_counterexample :
    ("".data.all Char.isDigit = true) ∧
    Event.cleanup "" ∈ invoke_dirtools3 argsTrimEmpty fs4 ∧
    Event.write .stderr (.ambiguousTrim "") ∉ invoke_dirtools3 argsTrimEmpty fs4 := by
  refine ⟨by decide, by decide, by decide⟩

/-- C1 (amended: non-empty bare-digit strings): for every `--trim-down`
argument that is a non-empty string of digits, the run writes the ambiguity
error to the error stream, never invokes `cleanup_items`, and writes nothing
to standard output. -/
theorem claim_C1 (args : Args) (fs : Folder) (td : String)
    (h : args.trim_down = some td) (hs : (resolveSortBy args.sortby).isSome = true)
    (hne : td ≠ "") (hdig : td.data.all Char.isDigit = true) :
    Event.write .stderr (.ambiguousTrim td) ∈ invoke_dirtools3 args fs ∧
    Event.cleanup td ∉ invoke_dirtools3 args fs ∧
    ∀ c, Event.write .stdout c ∉ invoke_dirtools3 args fs := by
  rw [bareDigitTrace args fs td h (pyIsdigit_of td hne hdig) hs]
  refine ⟨by simp, by simp, fun c => by simp⟩

/-- C1 witness: the run `--trim-down 12345` is rejected as the amended claim
states. -/
theorem claim_C1_witness :
    Event.write .stderr (.ambiguousTrim "12345") ∈
      invoke_dirtools3 ⟨"/d", "atime_desc", "simple", 2, 0, true, some "12345"⟩ fs4 ∧
    Event.cleanup "12345" ∉
      invoke_dirtools3 ⟨"/d", "atime_desc", "simple", 2, 0, true, some "12345"⟩ fs4 ∧
    ∀ c, Event.write .stdout c ∉
      invoke_dirtools3 ⟨"/d", "atime_desc", "simple", 2, 0, true, some "12345"⟩ fs4 :=
  claim_C1 _ fs4 "12345" rfl (by decide) (by decide) (by decide)

/-- C2: the summary of the cleanup run over entries of sizes 10, 20, 30, 40
trimming to `"60b"` (3 entries deleted, 1 left).  The deleted-size field is
the pre-trim total minus the post-trim total (60 bytes), but the reported
deleted count is `len(scan) - old_items_len` = post-trim minus pre-trim =
`1 - 4 = -3`, not the claimed pre-trim minus post-trim (`3`): the code
contradicts its own "items ... has been deleted" message. -/
theorem claim_C2 :
    fs4.len = 4 ∧
    human2bytes "60b" = some 60 ∧
    Event.write .stderr (.summaryDeleted (-3) "60.00b") ∈ invoke_dirtools3 argsTrim60 fs4 ∧
    Event.write .stderr (.summaryRemaining 1 "40.00b" 1) ∈ invoke_dirtools3 argsTrim60 fs4 ∧
    (-3 : Int) = (1 : Int) - (4 : Int) ∧
    ¬((-3 : Int) = (4 : Int) - (1 : Int)) := by
  refine ⟨by decide, by decide, by decide, by decide, by decide, by decide⟩

/-- C6: an unrecognized `--sortby` value makes the run exit with an error on
the error stream only: no folder scan is started and nothing reaches
standard output. -/
theorem claim_C6 (cwd : String) (r : RawArgs) (fs : Folder) (s : String)
    (h : r.sortby = some s) (hbad : SORT_BY_OPTIONS.contains s = false) :
    dirtMain cwd r fs =
      [Event.write .stderr (.argError ("argument -s/--sortby: invalid choice: " ++ s))] ∧
    (∀ p, Event.scanFolder p ∉ dirtMain cwd r fs) ∧
    (∀ c, Event.write .stdout c ∉ dirtMain cwd r fs) := by
  have hbad' : s ∉ SORT_BY_OPTIONS := by simpa using hbad
  have hg : get_args cwd r =
      Except.error ("argument -s/--sortby: invalid choice: " ++ s) := by
    simp [get_args, h, hbad']
  refine ⟨by simp [dirtMain, hg], fun p => by simp [dirtMain, hg], fun c => by simp [dirtMain, hg]⟩

/-- C6 witness: `--sortby bogus` produces exactly the argparse error event. -/
theorem claim_C6_witness :
    dirtMain "/w" ⟨none, some "bogus", none, none, none, false, none⟩ fs4 =
      [Event.write .stderr (.argError ("argument -s/--sortby: invalid choice: " ++ "bogus"))] ∧
    (∀ p, Event.scanFolder p ∉ dirtMain "/w" ⟨none, some "bogus", none, none, none, false, none⟩ fs4) ∧
    (∀ c, Event.write .stdout c ∉ dirtMain "/w" ⟨none, some "bogus", none, none, none, false, none⟩ fs4) :=
  claim_C6 "/w" _ fs4 "bogus" rfl (by decide)

/-- C8: in cleanup mode the folder scan always happens first: even a
bare-digit `--trim-down` value that is about to be rejected is preceded by
the complete read-only scan of the path — the trace is exactly the scan and
then the ambiguity error. -/
theorem claim_C8 (args : Args) (fs : Folder) (td : String)
    (h : args.trim_down = some td) (hd : pyIsdigit td = true)
    (hs : (resolveSortBy args.sortby).isSome = true) :
    invoke_dirtools3 args fs =
      [Event.scanFolder args.path, Event.write .stderr (.ambiguousTrim td)] :=
  bareDigitTrace args fs td h hd hs

/-- C8 witness: the rejected run `--trim-down 12345` still scans first. -/
theorem claim_C8_witness :
    invoke_dirtools3 argsTrim12345 fs4 =
      [Event.scanFolder "/d", Event.write .stderr (.ambiguousTrim "12345")] :=
  claim_C8 argsTrim12345 fs4 "12345" rfl (by decide) (by decide)

/-- C9: the bare-digit guard fires exactly on the non-empty all-digit
strings; every other `--trim-down` value — including `"12.5"` and the empty
string — passes the guard and is forwarded to the cleanup/size-decoding
path. -/
theorem claim_C9 (args : Args) (fs : Folder) (td : String)
    (h : args.trim_down = some td) (hs : (resolveSortBy args.sortby).isSome = true) :
    ((Event.write .stderr (.ambiguousTrim td) ∈ invoke_dirtools3 args fs) ↔
      (td.data ≠ [] ∧ td.data.all Char.isDigit = true)) ∧
    (¬(td.data ≠ [] ∧ td.data.all Char.isDigit = true) →
      Event.cleanup td ∈ invoke_dirtools3 args fs) := by
  rcases ho : resolveSortBy args.sortby with _ | s
  · rw [ho] at hs; simp at hs
  · by_cases hd : pyIsdigit td = true
    · have htr := bareDigitTrace args fs td h hd hs
      have hchar : td.data ≠ [] ∧ td.data.all Char.isDigit = true := by
        simpa [pyIsdigit] using hd
      rw [htr]
      exact ⟨by simp [hchar], fun hc => absurd hchar hc⟩
    · have hchar : ¬(td.data ≠ [] ∧ td.data.all Char.isDigit = true) := by
        simpa [pyIsdigit] using hd
      rw [Bool.not_eq_true] at hd
      have hnotmem : Event.write .stderr (.ambiguousTrim td) ∉ invoke_dirtools3 args fs := by
        rcases hu : human2bytes td with _ | T <;> simp [invoke_dirtools3, ho, h, hd, hu]
      have hmem : Event.cleanup td ∈ invoke_dirtools3 args fs := by
        rcases hu : human2bytes td with _ | T <;> simp [invoke_dirtools3, ho, h, hd, hu]
      exact ⟨⟨fun hm => absurd hm hnotmem, fun hch => absurd hch hchar⟩, fun _ => hmem⟩

/-- C7: an out-of-range `--precision` (outside [0,11]) or `--depth`
(outside [0,2]) is rejected by the argparse boundary — `get_args` never
returns and no scan event can occur — while in-range values are accepted
(when the other provided options are valid choices). -/
theorem claim_C7 (cwd : String) (r : RawArgs) (fs : Folder) :
    (∀ p : Int, r.precision = some p → (p < 0 ∨ 11 < p) →
      (∀ a, get_args cwd r ≠ Except.ok a) ∧
      ∀ q, Event.scanFolder q ∉ dirtMain cwd r fs) ∧
    (∀ d : Int, r.depth = some d → (d < 0 ∨ 2 < d) →
      (∀ a, get_args cwd r ≠ Except.ok a) ∧
      ∀ q, Event.scanFolder q ∉ dirtMain cwd r fs) ∧
    (∀ p d : Int, r.precision = some p → r.depth = some d →
      0 ≤ p → p ≤ 11 → 0 ≤ d → d ≤ 2 →
      (∀ s, r.sortby = some s → SORT_BY_OPTIONS.contains s = true) →
      (∀ o, r.output = some o → TABULATE_OPTIONS.contains o = true) →
      ∃ a, get_args cwd r = Except.ok a ∧ a.precision = p.toNat ∧ a.depth = d.toNat) := by
  have hnoscan : (∀ a, get_args cwd r ≠ Except.ok a) →
      ∀ q, Event.scanFolder q ∉ dirtMain cwd r fs := by
    intro hne q
    rcases hg : get_args cwd r with e | a
    · simp [dirtMain, hg]
    · exact absurd hg (hne a)
  refine ⟨?_, ?_, ?_⟩
  · intro p hp hout
    have hne : ∀ a, get_args cwd r ≠ Except.ok a := by
      intro a hok
      simp only [get_args] at hok
      split_ifs at hok with h1 h2 h3 h4
      rw [hp] at h3
      simp at h3
      omega
    exact ⟨hne, hnoscan hne⟩
  · intro d hd hout
    have hne : ∀ a, get_args cwd r ≠ Except.ok a := by
      intro a hok
      simp only [get_args] at hok
      split_ifs at hok with h1 h2 h3 h4
      rw [hd] at h4
      simp at h4
      omega
    exact ⟨hne, hnoscan hne⟩
  · intro p d hp hd hp0 hp1 hd0 hd1 hsort hout
    have hp2 : p < 12 := by omega
    have hd2 : d < 3 := by omega
    rcases hsb : r.sortby with _ | s <;> rcases hob : r.output with _ | o
    · have hg : get_args cwd r = Except.ok
          { path := r.path.getD cwd, sortby := "atime_desc", output := "simple",
            precision := p.toNat, depth := d.toNat, nohuman := r.nohuman,
            trim_down := r.trim_down } := by
        simp [get_args, hsb, hob, hp, hd, hp0, hp2, hd0, hd2]
      exact ⟨_, hg, rfl, rfl⟩
    · have ho' : o ∈ TABULATE_OPTIONS := by simpa using hout o hob
      have hg : get_args cwd r = Except.ok
          { path := r.path.getD cwd, sortby := "atime_desc", output := o,
            precision := p.toNat, depth := d.toNat, nohuman := r.nohuman,
            trim_down := r.trim_down } := by
        simp [get_args, hsb, hob, hp, hd, hp0, hp2, hd0, hd2, ho']
      exact ⟨_, hg, rfl, rfl⟩
    · have hs' : s ∈ SORT_BY_OPTIONS := by simpa using hsort s hsb
      have hg : get_args cwd r = Except.ok
          { path := r.path.getD cwd, sortby := s, output := "simple",
            precision := p.toNat, depth := d.toNat, nohuman := r.nohuman,
            trim_down := r.trim_down } := by
        simp [get_args, hsb, hob, hp, hd, hp0, hp2, hd0, hd2, hs']
      exact ⟨_, hg, rfl, rfl⟩
    · have hs' : s ∈ SORT_BY_OPTIONS := by simpa using hsort s hsb
      have ho' : o ∈ TABULATE_OPTIONS := by simpa using hout o hob
      have hg : get_args cwd r = Except.ok
          { path := r.path.getD cwd, sortby := s, output := o,
            precision := p.toNat, depth := d.toNat, nohuman := r.nohuman,
            trim_down := r.trim_down } := by
        simp [get_args, hsb, hob, hp, hd, hp0, hp2, hd0, hd2, hs', ho']
      exact ⟨_, hg, rfl, rfl⟩

/-- C7 witness: `--precision 12` is rejected before scanning, `--depth 5`
is rejected before scanning, and `--precision 11 --depth 2` is accepted. -/
theorem claim_C7_witness :
    ((∀ a, get_args "/w" ⟨none, none, none, some 12, none, false, none⟩ ≠ Except.ok a) ∧
      ∀ q, Event.scanFolder q ∉
        dirtMain "/w" ⟨none, none, none, some 12, none, false, none⟩ fs4) ∧
    ((∀ a, get_args "/w" ⟨none, none, none, none, some 5, false, none⟩ ≠ Except.ok a) ∧
      ∀ q, Event.scanFolder q ∉
        dirtMain "/w" ⟨none, none, none, none, some 5, false, none⟩ fs4) ∧
    (∃ a, get_args "/w" ⟨none, none, none, some 11, some 2, false, none⟩ = Except.ok a ∧
      a.precision = (11 : Int).toNat ∧ a.depth = (2 : Int).toNat) :=
  ⟨(claim_C7 "/w" ⟨none, none, none, some 12, none, false, none⟩ fs4).1 12 rfl (by decide),
   (claim_C7 "/w" ⟨none, none, none, none, some 5, false, none⟩ fs4).2.1 5 rfl (by decide),
   (claim_C7 "/w" ⟨none, none, none, some 11, some 2, false, none⟩ fs4).2.2 11 2 rfl rfl
     (by decide) (by decide) (by decide) (by decide)
     (fun s hs => by cases hs) (fun o ho => by cases ho)⟩

/-- C10: in listing mode the summary is written to standard output (and
nothing goes to the error stream), while in cleanup mode the only stdout
write is the table and both summary lines go to the error stream. -/
theorem claim_C10 (args : Args) (fs : Folder) :
    (args.trim_down = none → (resolveSortBy args.sortby).isSome = true →
      (∃ c s t, OutContent.summaryListing c s t ∈ stdoutContents (invoke_dirtools3 args fs)) ∧
      ∀ c, Event.write .stderr c ∉ invoke_dirtools3 args fs) ∧
    (∀ td T, args.trim_down = some td → (resolveSortBy args.sortby).isSome = true →
      pyIsdigit td = false → human2bytes td = some T →
      (∃ r, stdoutContents (invoke_dirtools3 args fs) = [.rows r]) ∧
      (∃ dl ds, Event.write .stderr (.summaryDeleted dl ds) ∈ invoke_dirtools3 args fs) ∧
      (∃ c s t, Event.write .stderr (.summaryRemaining c s t) ∈ invoke_dirtools3 args fs)) := by
  constructor
  · intro htd hs
    rcases ho : resolveSortBy args.sortby with _ | s
    · rw [ho] at hs; simp at hs
    · constructor
      · exact ⟨fs.len, bytes2human fs.total_size args.precision, fs.exec_took,
          by simp [invoke_dirtools3, ho, htd, stdoutContents]⟩
      · intro c
        simp [invoke_dirtools3, ho, htd]
  · intro td T htd hs hd hu
    rcases ho : resolveSortBy args.sortby with _ | s
    · rw [ho] at hs; simp at hs
    · have htr : invoke_dirtools3 args fs =
          [Event.scanFolder args.path, Event.cleanup td,
           Event.write .stdout (.rows (renderOutput args.output
             ((fs.afterTrim T).items (!args.nohuman) args.precision))),
           Event.write .stderr
             (.summaryDeleted (((fs.afterTrim T).len : Int) - (fs.len : Int))
               (bytes2human (fs.total_size - (fs.afterTrim T).total_size) args.precision)),
           Event.write .stderr
             (.summaryRemaining (fs.afterTrim T).len
               (bytes2human (fs.afterTrim T).total_size args.precision)
               (fs.afterTrim T).exec_took)] := by
        simp [invoke_dirtools3, ho, htd, hd, hu]
      refine ⟨⟨renderOutput args.output ((fs.afterTrim T).items (!args.nohuman) args.precision), ?_⟩,
        ⟨((fs.afterTrim T).len : Int) - (fs.len : Int),
         bytes2human (fs.total_size - (fs.afterTrim T).total_size) args.precision, ?_⟩,
        ⟨(fs.afterTrim T).len, bytes2human (fs.afterTrim T).total_size args.precision,
         (fs.afterTrim T).exec_took, ?_⟩⟩
      · rw [htr]; rfl
      · rw [htr]; simp
      · rw [htr]; simp

/-- C10 witness: a concrete listing run and a concrete cleanup run show the
summary placement on the two streams. -/
theorem claim_C10_witness :
    ((∃ c s t, OutContent.summaryListing c s t ∈ stdoutContents (invoke_dirtools3 argsCsv fs1)) ∧
      ∀ c, Event.write .stderr c ∉ invoke_dirtools3 argsCsv fs1) ∧
    ((∃ r, stdoutContents (invoke_dirtools3 argsTrim60 fs4) = [.rows r]) ∧
      (∃ dl ds, Event.write .stderr (.summaryDeleted dl ds) ∈ invoke_dirtools3 argsTrim60 fs4) ∧
      (∃ c s t, Event.write .stderr (.summaryRemaining c s t) ∈ invoke_dirtools3 argsTrim60 fs4)) :=
  ⟨(claim_C10 argsCsv fs1).1 rfl (by decide),
   (claim_C10 argsTrim60 fs4).2 "60b" 60 rfl (by decide) (by decide) (by decide)⟩

/-- The deletion loop, characterized: it removes exactly the prefix of
entries whose running remaining total still exceeds the target, and when an
entry survives the remaining total is at or below the target. -/
theorem trimLoop_spec : ∀ (entries : List Entry) (total T : Nat),
    ∃ d, d ≤ entries.length ∧
      trimLoop entries total T = (entries.drop d, total - sizeSum (entries.take d)) ∧
      (∀ j, j < d → T < total - sizeSum (entries.take j)) ∧
      (d < entries.length → total - sizeSum (entries.take d) ≤ T)
  | [], total, T => ⟨0, by simp [trimLoop, sizeSum]⟩
  | e :: es, total, T => by
    by_cases hT : T < total
    · obtain ⟨d, hd, heq, hrun, hstop⟩ := trimLoop_spec es (total - e.size) T
      refine ⟨d + 1, by simpa using hd, ?_, ?_, ?_⟩
      · simpa [trimLoop, hT, sizeSum, Nat.sub_sub] using heq
      · intro j hj
        match j with
        | 0 => simpa [sizeSum] using hT
        | j + 1 =>
          have hj' := hrun j (by omega)
          simpa [sizeSum, Nat.sub_sub] using hj'
      · intro hlen
        have hst := hstop (by simpa using Nat.lt_of_succ_lt_succ hlen)
        simpa [sizeSum, Nat.sub_sub] using hst
    · exact ⟨0, Nat.zero_le _, by simp [trimLoop, hT, sizeSum],
        fun j hj => absurd hj (Nat.not_lt_zero j),
        fun _ => by simp [sizeSum]; omega⟩

/-- C3: the trim loop deletes an entry exactly while the running remaining
total (scan total, decremented per deleted entry) still exceeds the decoded
target `T`, stopping as soon as the remaining total is at or below `T`; on
the sorted sizes [10, 20, 30, 40] with total 100 and target `"60b"` (60
bytes) it deletes the first three entries and the 40-byte entry survives
with remaining total 40. -/
theorem claim_C3 :
    (∀ (entries : List Entry) (total T : Nat),
      ∃ d, d ≤ entries.length ∧
        trimLoop entries total T = (entries.drop d, total - sizeSum (entries.take d)) ∧
        (∀ j, j < d → T < total - sizeSum (entries.take j)) ∧
        (d < entries.length → total - sizeSum (entries.take d) ≤ T)) ∧
    human2bytes "60b" = some 60 ∧
    fs4.total_size = 100 ∧
    trimLoop fs4.entries fs4.total_size 60 = ([⟨"e4", 40, 0, 1, 4, 4, 4⟩], 40) :=
  ⟨trimLoop_spec, by decide, by decide, by decide⟩

/-- C3 witness: the characterization applied to the concrete run of the
spec's worked example. -/
theorem claim_C3_witness :
    ∃ d, d ≤ fs4.entries.length ∧
      trimLoop fs4.entries 100 60 = (fs4.entries.drop d, 100 - sizeSum (fs4.entries.take d)) ∧
      (∀ j, j < d → 60 < 100 - sizeSum (fs4.entries.take j)) ∧
      (d < fs4.entries.length → 100 - sizeSum (fs4.entries.take d) ≤ 60) :=
  claim_C3.1 fs4.entries 100 60

/-- Any rendered output built from a folder's row mappings satisfies the
column contract. -/
theorem renderOutput_columnsOk (humanise : Bool) (precision : Nat) (output : String)
    (f : Folder) :
    ColumnsOk humanise precision (renderOutput output (f.items humanise precision)) := by
  unfold renderOutput
  by_cases hc : (strLower output == "csv") = true
  · rw [if_pos hc]
    simp only [ColumnsOk]
    constructor
    · simp [csvRows, TABLE_HEADERS]
    · intro row hrow
      simp only [csvRows, List.tail_cons, List.mem_map, Folder.items] at hrow
      obtain ⟨cells, ⟨e, _, hcells⟩, hrowEq⟩ := hrow
      refine ⟨e, ?_⟩
      rw [← hrowEq, ← hcells]
      simp [Entry.values]
  · rw [if_neg hc]
    simp only [ColumnsOk]
    constructor
    · simp [TABLE_HEADERS, headerLabels]
    · intro row hrow
      simp only [Folder.items, List.mem_map] at hrow
      obtain ⟨e, _, hcells⟩ := hrow
      exact ⟨e, by rw [← hcells]; simp [Entry.values]⟩

/-- C5: every table written to standard output lists the columns in the
fixed order Name, Size, Depth, Files, Access Time, Modify Time, Change
Time; in csv the quoted header row comes first and exactly the non-numeric
fields are quoted. -/
theorem claim_C5 (args : Args) (fs : Folder) (r : Rendered)
    (h : Event.write .stdout (.rows r) ∈ invoke_dirtools3 args fs) :
    ColumnsOk (!args.nohuman) args.precision r := by
  rcases ho : resolveSortBy args.sortby with _ | s
  · simp [invoke_dirtools3, ho] at h
  · rcases htd : args.trim_down with _ | td
    · simp [invoke_dirtools3, ho, htd] at h
      rw [h]
      exact renderOutput_columnsOk _ _ _ _
    · by_cases hd : pyIsdigit td = true
      · simp [invoke_dirtools3, ho, htd, hd] at h
      · rw [Bool.not_eq_true] at hd
        rcases hu : human2bytes td with _ | T
        · simp [invoke_dirtools3, ho, htd, hd, hu] at h
        · simp [invoke_dirtools3, ho, htd, hd, hu] at h
          rw [h]
          exact renderOutput_columnsOk _ _ _ _

/-- C5 witness: the csv rendering of a concrete listing run has the quoted
header row first and the entry's fields in the fixed column order. -/
theorem claim_C5_witness :
    ColumnsOk (!argsCsv.nohuman) argsCsv.precision
      (.csv [["\"Name\"", "\"Size\"", "\"Depth\"", "\"Files\"", "\"Access Time\"",
              "\"Modify Time\"", "\"Change Time\""],
             ["\"a\"", "5", "0", "1", "7", "8", "9"]]) :=
  claim_C5 argsCsv fs1 _ (by decide)

/-- The rounding division `natRound a b` is within half a `b` of `a / b`:
`2 * |natRound a b * b - a| ≤ b`, stated as two-sided bounds over `ℤ`. -/
theorem natRound_bound (a b : Nat) (hb : 0 < b) :
    -(b:ℤ) ≤ 2 * ((natRound a b : ℤ) * b - a) ∧
      2 * ((natRound a b : ℤ) * b - a) ≤ b := by
  have hmod : 2 * b * ((2*a + b) / (2*b)) + (2*a + b) % (2*b) = 2*a + b :=
    Nat.div_add_mod _ _
  have hlt : (2*a + b) % (2*b) < 2*b := Nat.mod_lt _ (by omega)
  have hmodZ : (2:ℤ) * b * (((2*a + b) / (2*b) : ℕ) : ℤ) +
      (((2*a + b) % (2*b) : ℕ) : ℤ) = 2*a + b := by exact_mod_cast hmod
  have hltZ : (((2*a + b) % (2*b) : ℕ) : ℤ) < 2*b := by exact_mod_cast hlt
  have hge : (0:ℤ) ≤ (((2*a + b) % (2*b) : ℕ) : ℤ) := by positivity
  unfold natRound
  constructor <;> linarith [hmodZ, hltZ, hge]

/-- Rounding an exact multiple is exact. -/
theorem natRound_mul_self (x d : Nat) (hd : 0 < d) : natRound (x * d) d = x := by
  unfold natRound
  rw [show 2 * (x * d) + d = (2*x + 1) * d by ring]
  rw [Nat.mul_comm 2 d, Nat.mul_comm (2*x+1) d, Nat.mul_div_mul_left _ _ hd]
  omega

/-- The chosen unit keeps the mantissa at least 1. -/
theorem unitExp_le (n : Nat) (hn : 1 ≤ n) : 1024 ^ unitExp n ≤ n := by
  unfold unitExp
  split_ifs <;> norm_num at * <;> omega

/-- The unit exponent never exceeds `pb`. -/
theorem unitExp_lt_six (n : Nat) : unitExp n < 6 := by
  unfold unitExp
  split_ifs <;> norm_num

/-- A nonzero unit exponent means at least a kilobyte. -/
theorem unitExp_big (n : Nat) (h : unitExp n ≠ 0) : 1024 ≤ n := by
  unfold unitExp at h
  split_ifs at h <;> omega

/-- Rounding to the scaled mantissa and back is within relative error
`1 / P` of the original: the core inequality behind the round-trip law,
for any mantissa denominator `B` and precision denominator `P` such that
`B ≤ n` whenever `P < B`. -/
theorem natRound_twice_close (n B P : Nat) (hB : 0 < B) (hP : 0 < P)
    (hBn : P < B → B ≤ n) :
    |((natRound (natRound (n * P) B * B) P : ℤ) - n)| * P ≤ n := by
  have e1 := natRound_bound (n * P) B hB
  have e2 := natRound_bound (natRound (n * P) B * B) P hP
  set S := natRound (n * P) B with hS
  set m := natRound (S * B) P with hm
  have e1l : -(B:ℤ) ≤ 2 * ((S:ℤ) * B - (n:ℤ) * P) := by
    have h := e1.1; push_cast at h ⊢; linarith
  have e1r : 2 * ((S:ℤ) * B - (n:ℤ) * P) ≤ B := by
    have h := e1.2; push_cast at h ⊢; linarith
  have e2l : -(P:ℤ) ≤ 2 * ((m:ℤ) * P - (S:ℤ) * B) := by
    have h := e2.1; push_cast at h ⊢; linarith
  have e2r : 2 * ((m:ℤ) * P - (S:ℤ) * B) ≤ P := by
    have h := e2.2; push_cast at h ⊢; linarith
  have hcomb_l : -((B:ℤ) + P) ≤ 2 * (((m:ℤ) - n) * P) := by nlinarith [e1l, e2l]
  have hcomb_r : 2 * (((m:ℤ) - n) * P) ≤ (B:ℤ) + P := by nlinarith [e1r, e2r]
  have habs : |2 * (((m:ℤ) - n) * P)| ≤ (B:ℤ) + P := abs_le.mpr ⟨hcomb_l, hcomb_r⟩
  have hPz : (0:ℤ) < P := by exact_mod_cast hP
  have hexp : |2 * (((m:ℤ) - n) * P)| = 2 * |(m:ℤ) - n| * P := by
    rw [show (2:ℤ) * (((m:ℤ) - n) * P) = 2 * P * ((m:ℤ) - n) by ring, abs_mul]
    rw [abs_of_nonneg (by positivity : (0:ℤ) ≤ 2 * P)]
    ring
  have hA : 2 * |(m:ℤ) - n| * P ≤ (B:ℤ) + P := hexp ▸ habs
  rcases lt_trichotomy B P with hlt | heq | hgt
  · have hBz : (B:ℤ) < P := by exact_mod_cast hlt
    have hmn : |(m:ℤ) - n| = 0 := by
      by_contra hne
      have h1 : (1:ℤ) ≤ |(m:ℤ) - n| :=
        Int.one_le_abs (abs_ne_zero.mp hne)
      nlinarith [hA, h1, hPz, hBz]
    rw [hmn]
    simp
  · subst heq
    have hSn : S = n := by rw [hS]; exact natRound_mul_self n B hB
    have hmn : m = n := by rw [hm, hSn]; exact natRound_mul_self n B hB
    rw [hmn]
    simp
  · have hBn' : (B:ℤ) ≤ n := by exact_mod_cast hBn hgt
    have hPB : (P:ℤ) ≤ B := by exact_mod_cast le_of_lt hgt
    linarith [hA, hBn', hPB]

/-- The fuelled digit expansion evaluates back to its input. -/
theorem fromDigits_digitsAux : ∀ (fuel n : Nat), n ≤ fuel →
    fromDigits (digitsAux fuel n) = n
  | fuel, 0, _ => by cases fuel <;> simp [digitsAux, fromDigits]
  | 0, _ + 1, h => by omega
  | fuel + 1, n + 1, h => by
    have hdiv : (n + 1) / 10 ≤ fuel := by
      have h1 : (n + 1) / 10 < n + 1 := Nat.div_lt_self (by omega) (by omega)
      omega
    simp [digitsAux, fromDigits, fromDigits_digitsAux fuel ((n + 1) / 10) hdiv]
    omega

/-- All produced digits are below 10. -/
theorem digitsAux_lt : ∀ (fuel n : Nat), ∀ d ∈ digitsAux fuel n, d < 10
  | fuel, 0 => by cases fuel <;> simp [digitsAux]
  | 0, _ + 1 => by simp [digitsAux]
  | fuel + 1, n + 1 => by
    intro d hd
    simp only [digitsAux, List.mem_cons] at hd
    rcases hd with h | h
    · omega
    · exact digitsAux_lt fuel ((n + 1) / 10) d h

/-- A number below `10 ^ k` has at most `k` digits. -/
theorem digitsAux_len : ∀ (fuel n k : Nat), n < 10 ^ k →
    (digitsAux fuel n).length ≤ k
  | fuel, 0, _, _ => by cases fuel <;> simp [digitsAux]
  | 0, _ + 1, _, _ => by simp [digitsAux]
  | fuel + 1, n + 1, k, h => by
    have hk : k ≠ 0 := by
      intro h0
      rw [h0, pow_zero] at h
      omega
    obtain ⟨k', rfl⟩ : ∃ k', k = k' + 1 := ⟨k - 1, by omega⟩
    have hdiv : (n + 1) / 10 < 10 ^ k' := by
      rw [Nat.div_lt_iff_lt_mul (by norm_num)]
      calc n + 1 < 10 ^ (k' + 1) := h
        _ = 10 ^ k' * 10 := by ring
    have hrec := digitsAux_len fuel ((n + 1) / 10) k' hdiv
    simp only [digitsAux, List.length_cons]
    omega

/-- Digit characters decode to their digit. -/
theorem charVal_digitChar : ∀ d, d < 10 → charVal (digitChar d) = d := by decide

/-- Digit characters are digits. -/
theorem digitChar_isDigit : ∀ d, d < 10 → (digitChar d).isDigit = true := by decide

/-- A digit character is not the decimal dot. -/
theorem isDigit_not_dot (c : Char) (h : c.isDigit = true) : (c == '.') = false := by
  cases hb : (c == '.')
  · rfl
  · have hc : c = '.' := eq_of_beq hb
    rw [hc] at h
    exact absurd h (by decide)

/-- A digit character belongs to the numeric component. -/
theorem isDigit_numChar (c : Char) (h : c.isDigit = true) : numChar c = true := by
  simp [numChar, h]

/-- Decimal renderings are never empty. -/
theorem natToChars_ne_nil (x : Nat) : natToChars x ≠ [] := by
  unfold natToChars
  split
  · simp
  · rename_i hx
    obtain ⟨m, rfl⟩ : ∃ m, x = m + 1 := ⟨x - 1, by omega⟩
    simp [digitsAux]

/-- Decimal renderings consist of digit characters. -/
theorem natToChars_digit (x : Nat) : ∀ c ∈ natToChars x, c.isDigit = true := by
  unfold natToChars
  split
  · intro c hc
    simp only [List.mem_singleton] at hc
    subst hc
    decide
  · intro c hc
    simp only [List.mem_map, List.mem_reverse] at hc
    obtain ⟨d, hd, rfl⟩ := hc
    exact digitChar_isDigit d (digitsAux_lt _ _ d hd)

/-- Parsing a decimal rendering recovers the number. -/
theorem chars2nat_natToChars (x : Nat) : chars2nat (natToChars x) = x := by
  by_cases hx : x = 0
  · subst hx
    decide
  · unfold natToChars chars2nat
    rw [if_neg hx]
    rw [List.map_map, List.map_reverse, List.reverse_reverse]
    have hmap : (digitsAux x x).map (charVal ∘ digitChar) = (digitsAux x x).map id :=
      List.map_congr_left fun d hd => charVal_digitChar d (digitsAux_lt _ _ d hd)
    rw [hmap, List.map_id]
    exact fromDigits_digitsAux x x le_rfl

/-- A rendering of a number below `10 ^ k` is at most `k` characters. -/
theorem natToChars_len_le (x k : Nat) (hk : 1 ≤ k) (hx : x < 10 ^ k) :
    (natToChars x).length ≤ k := by
  unfold natToChars
  split
  · simpa using hk
  · rw [List.length_map, List.length_reverse]
    exact digitsAux_len x x k hx

/-- Trailing zero digits do not change the value. -/
theorem fromDigits_replicate_zero : ∀ z, fromDigits (List.replicate z 0) = 0
  | 0 => rfl
  | z + 1 => by simp [List.replicate_succ, fromDigits, fromDigits_replicate_zero z]

/-- Appending zero digits at the most-significant end changes nothing. -/
theorem fromDigits_append_zeros : ∀ (A : List Nat) (z : Nat),
    fromDigits (A ++ List.replicate z 0) = fromDigits A
  | [], z => by simp [fromDigits, fromDigits_replicate_zero z]
  | d :: A, z => by simp [fromDigits, fromDigits_append_zeros A z]

/-- Left-padding with zero characters does not change the parsed value. -/
theorem chars2nat_pad (F z : Nat) :
    chars2nat (List.replicate z '0' ++ natToChars F) = F := by
  unfold chars2nat
  rw [List.map_append, List.map_replicate]
  rw [show charVal '0' = 0 from rfl]
  rw [List.reverse_append, List.reverse_replicate]
  rw [fromDigits_append_zeros]
  exact chars2nat_natToChars F

/-- The numeric-component splitter cuts exactly at the unit suffix. -/
theorem splitNum_append : ∀ (xs ys : List Char),
    (∀ c ∈ xs, numChar c = true) →
    (∀ c, ys.head? = some c → numChar c = false) →
    splitNum (xs ++ ys) = (xs, ys)
  | [], ys, _, hy => by
    cases ys with
    | nil => rfl
    | cons c cs => simp [splitNum, hy c rfl]
  | x :: xs, ys, hx, hy => by
    have h1 : numChar x = true := hx x (List.mem_cons_self x xs)
    simp [splitNum, h1,
      splitNum_append xs ys (fun c hc => hx c (List.mem_cons_of_mem x hc)) hy]

/-- A dot-free numeric component splits with no fractional part. -/
theorem splitDot_nodot : ∀ (xs : List Char), (∀ c ∈ xs, (c == '.') = false) →
    splitDot xs = (xs, none)
  | [], _ => rfl
  | x :: xs, h => by
    simp [splitDot, h x (List.mem_cons_self x xs),
      splitDot_nodot xs (fun c hc => h c (List.mem_cons_of_mem x hc))]

/-- The dot splitter cuts at the (first) dot. -/
theorem splitDot_mid : ∀ (xs ys : List Char), (∀ c ∈ xs, (c == '.') = false) →
    splitDot (xs ++ '.' :: ys) = (xs, some ys)
  | [], ys, _ => by simp [splitDot]
  | x :: xs, ys, h => by
    simp [splitDot, h x (List.mem_cons_self x xs),
      splitDot_mid xs ys (fun c hc => h c (List.mem_cons_of_mem x hc))]

/-- The six unit suffixes parse back to their exponent and contain no
numeric characters. -/
theorem unitSuffix_facts : ∀ k, k < 6 →
    unitToExp (unitSuffix k) = some k ∧ ∀ c ∈ unitSuffix k, numChar c = false := by
  decide

/-- An integral rendering parses as an integer mantissa. -/
theorem parseNum_int (S : Nat) : parseNum (natToChars S) = some (S, 0) := by
  have hnodot : ∀ c ∈ natToChars S, (c == '.') = false :=
    fun c hc => isDigit_not_dot c (natToChars_digit S c hc)
  have h1 : (natToChars S).isEmpty = false := by
    cases hc : natToChars S with
    | nil => exact absurd hc (natToChars_ne_nil S)
    | cons a l => rfl
  have h2 : (natToChars S).all Char.isDigit = true :=
    List.all_eq_true.mpr fun c hc => natToChars_digit S c hc
  unfold parseNum
  rw [splitDot_nodot _ hnodot]
  simp [h1, h2, chars2nat_natToChars]

/-- A fractional rendering (positive precision) parses back to the scaled
mantissa and the precision. -/
theorem parseNum_frac (S p : Nat) (hp : p ≠ 0) :
    parseNum (renderNum S p) = some (S, p) := by
  have hP : 0 < (10:ℕ) ^ p := pow_pos (by norm_num) p
  have hnodotI : ∀ c ∈ natToChars (S / 10 ^ p), (c == '.') = false :=
    fun c hc => isDigit_not_dot c (natToChars_digit _ c hc)
  have hIempty : (natToChars (S / 10 ^ p)).isEmpty = false := by
    cases hc : natToChars (S / 10 ^ p) with
    | nil => exact absurd hc (natToChars_ne_nil _)
    | cons a l => rfl
  have hIall : (natToChars (S / 10 ^ p)).all Char.isDigit = true :=
    List.all_eq_true.mpr fun c hc => natToChars_digit _ c hc
  have hLp : (natToChars (S % 10 ^ p)).length ≤ p :=
    natToChars_len_le _ p (by omega) (Nat.mod_lt _ hP)
  have hpadall : (List.replicate (p - (natToChars (S % 10 ^ p)).length) '0' ++
      natToChars (S % 10 ^ p)).all Char.isDigit = true := by
    rw [List.all_eq_true]
    intro c hc
    rcases List.mem_append.mp hc with h | h
    · rw [List.eq_of_mem_replicate h]; decide
    · exact natToChars_digit _ c h
  have hpadlen : (List.replicate (p - (natToChars (S % 10 ^ p)).length) '0' ++
      natToChars (S % 10 ^ p)).length = p := by
    rw [List.length_append, List.length_replicate]
    omega
  rw [renderNum, if_neg hp]
  unfold parseNum
  rw [splitDot_mid _ _ hnodotI]
  simp [hIempty, hIall, hpadall, hpadlen, chars2nat_natToChars, chars2nat_pad]
  exact Nat.div_add_mod' S (10 ^ p)

/-- Decoding a `bytes2human` rendering gives the predicted re-rounded byte
count. -/
theorem human2bytes_render (n p : Nat) :
    human2bytes (bytes2human n p) =
      some (natRound (scaledMantissa n p * 1024 ^ unitExp n) (10 ^ p)) := by
  have hk6 : unitExp n < 6 := unitExp_lt_six n
  obtain ⟨hu1, hu2⟩ := unitSuffix_facts (unitExp n) hk6
  have hdata : (bytes2human n p).data =
      renderNum (scaledMantissa n p) p ++ unitSuffix (unitExp n) := rfl
  have hrdig : ∀ c ∈ renderNum (scaledMantissa n p) p, numChar c = true := by
    intro c hc
    unfold renderNum at hc
    by_cases hp : p = 0
    · rw [if_pos hp] at hc
      exact isDigit_numChar c (natToChars_digit _ c hc)
    · rw [if_neg hp] at hc
      rcases List.mem_append.mp hc with h | h
      · exact isDigit_numChar c (natToChars_digit _ c h)
      · rcases List.mem_cons.mp h with h | h
        · subst h; decide
        · rcases List.mem_append.mp h with h | h
          · rw [List.eq_of_mem_replicate h]; decide
          · exact isDigit_numChar c (natToChars_digit _ c h)
  have hsplit : splitNum ((bytes2human n p).data) =
      (renderNum (scaledMantissa n p) p, unitSuffix (unitExp n)) := by
    rw [hdata]
    refine splitNum_append _ _ hrdig ?_
    intro c hc
    cases hsfx : unitSuffix (unitExp n) with
    | nil => rw [hsfx] at hc; cases hc
    | cons a l =>
      rw [hsfx] at hc
      have hac : a = c := by simpa using hc
      subst hac
      exact hu2 a (by rw [hsfx]; exact List.mem_cons_self a l)
  unfold human2bytes
  rw [hsplit]
  by_cases hp : p = 0
  · subst hp
    have hre : renderNum (scaledMantissa n 0) 0 = natToChars (scaledMantissa n 0) := by
      rw [renderNum, if_pos rfl]
    simp only [hre, parseNum_int, hu1]
  · simp only [parseNum_frac _ p hp, hu1]

/-- C4: for every byte count `n` and precision `p` in [0,11], decoding the
human rendering of `n` at precision `p` yields a byte count within `10^-p`
relative error of `n` (`|m - n| * 10^p ≤ n`); and the integral-mantissa
input `"900mb"` decodes to exactly `900 * 1024^2`. -/
theorem claim_C4 :
    (∀ n p : Nat, p ≤ 11 →
      ∃ m, human2bytes (bytes2human n p) = some m ∧
        |(m : ℤ) - (n : ℤ)| * 10 ^ p ≤ (n : ℤ)) ∧
    human2bytes "900mb" = some (900 * 1024 ^ 2) := by
  constructor
  · intro n p _hp
    refine ⟨_, human2bytes_render n p, ?_⟩
    have hB : 0 < 1024 ^ unitExp n := pow_pos (by norm_num) _
    have hP : 0 < (10:ℕ) ^ p := pow_pos (by norm_num) _
    have hside : 10 ^ p < 1024 ^ unitExp n → 1024 ^ unitExp n ≤ n := by
      intro hlt
      have hk : unitExp n ≠ 0 := by
        intro h0
        rw [h0, pow_zero] at hlt
        omega
      exact unitExp_le n (by have := unitExp_big n hk; omega)
    have key := natRound_twice_close n (1024 ^ unitExp n) (10 ^ p) hB hP hside
    have hcast : (((10:ℕ) ^ p : ℕ) : ℤ) = (10:ℤ) ^ p := by push_cast; rfl
    rw [hcast] at key
    simpa [scaledMantissa] using key
  · decide

/-- C4 witness: the round-trip law applied at the concrete byte count
123456789 with precision 3. -/
theorem claim_C4_witness :
    ∃ m, human2bytes (bytes2human 123456789 3) = some m ∧
      |(m : ℤ) - (123456789 : ℤ)| * 10 ^ 3 ≤ (123456789 : ℤ) :=
  claim_C4.1 123456789 3 (by decide)

/-- C9 witness: `"12.5"` and the empty string both pass the guard and reach
the cleanup path. -/
theorem claim_C9_witness :
    ((Event.write .stderr (.ambiguousTrim "12.5") ∈
        invoke_dirtools3 ⟨"/d", "atime_desc", "simple", 2, 0, true, some "12.5"⟩ fs4) ↔
      (("12.5").data ≠ [] ∧ ("12.5").data.all Char.isDigit = true)) ∧
    (¬((("12.5").data ≠ [] ∧ ("12.5").data.all Char.isDigit = true)) →
      Event.cleanup "12.5" ∈
        invoke_dirtools3 ⟨"/d", "atime_desc", "simple", 2, 0, true, some "12.5"⟩ fs4) :=
  claim_C9 _ fs4 "12.5" rfl (by decide)

end Dirt
